import Mathlib

/-!
Verification development for the `video_processor` repository.

The definitions below are a shallow embedding of the segmentation engine in
`src/core/video.py` (`process_video`), the batch orchestration in
`src/core/processor.py` (`process_subfolder` / `process_single_video`) and the
progress log in `src/utils/csv_logger.py`.  Python integers are modelled as
`Int`, Python floats (fps, times) as `Rat`, and Python's `int()` conversion as
truncation toward zero.
-/

namespace VideoProcessor

/-- Python's `int(x)` applied to a non-integral number truncates toward zero:
floor for non-negative values, ceiling for negative ones. -/
def ratTrunc (q : Rat) : Int :=
if 0 ≤ q then ⌊q⌋ else ⌈q⌉

/-- One analyzed frame of a video, carrying its frame index
(`current_frame_idx` in `process_video`) and the two fused activity signals
(`motion_detected`, `objects_detected`) computed for that frame
(video.py lines 139-201; the motion/object detectors themselves are the
external collaborators of the spec). -/
structure Frame where
  idx : Int
  motion : Bool
  objects : Bool
deriving DecidableEq, Repr

/-- A segment of activity, `current_segment` / entries of `segments` in
`process_video` (video.py lines 204-231).  The Python dict key `end` is a Lean
keyword, so it is called `stop` here. -/
structure Segment where
  start : Int
  stop : Int
  motion : Bool
  objects : Bool
deriving DecidableEq, Repr

/-- The segment-builder state of `process_video`: the list of closed segments
(`segments`) and the currently open one (`current_segment`, `None` when idle). -/
structure BuildState where
  segments : List Segment
  current : Option Segment
deriving DecidableEq, Repr

/-- One step of the segment state machine, video.py lines 204-231, for a single
analyzed frame:
  * active frame, no open segment: open one with
    `start = max(0, idx - buffer_frames)`, `end = idx`;
  * active frame, open segment: extend `end` and OR the flags;
  * inactive frame, open segment: close it (appending `end + buffer_frames`)
    when `idx - end > buffer_frames`, otherwise leave it open;
  * inactive frame, no open segment: no change. -/
def updateSegment (buffer_frames : Int) (st : BuildState) (f : Frame) : BuildState :=
if f.motion || f.objects then
  match st.current with
  | none =>
      { st with current := some { start := max 0 (f.idx - buffer_frames), stop := f.idx,
                                  motion := f.motion, objects := f.objects } }
  | some cur =>
      { st with current := some { cur with
                                  stop := f.idx,
                                  motion := cur.motion || f.motion,
                                  objects := cur.objects || f.objects } }
else
  match st.current with
  | none => st
  | some cur =>
      if f.idx - cur.stop > buffer_frames then
        { segments := st.segments ++ [{ cur with stop := cur.stop + buffer_frames }],
          current := none }
      else st

/-- Run the segment builder over a video's analyzed-frame stream
(the `while cap.isOpened()` loop of video.py restricted to its
segment-tracking effect). -/
def buildSegments (buffer_frames : Int) (frames : List Frame) : BuildState :=
frames.foldl (updateSegment buffer_frames) ⟨[], none⟩

/-- End-of-stream closing of a still-open segment, video.py lines 244-251:
`end = min(end + buffer_frames, total_frames - 1)`. -/
def finalizeSegments (buffer_frames total_frames : Int) (st : BuildState) : List Segment :=
match st.current with
| none => st.segments
| some cur =>
    st.segments ++ [{ cur with stop := min (cur.stop + buffer_frames) (total_frames - 1) }]

/-- Comparator used to sort closed segments by `start` ascending
(`segments.sort(key=lambda x: x['start'])`, video.py line 257). -/
def segLe (a b : Segment) : Bool :=
a.start ≤ b.start

/-- One step of the merge loop, video.py lines 260-274: a segment merges into
the last accepted one iff its `start` does not exceed that segment's `end`;
merging takes the max `end` and ORs the flags. -/
def mergeStep (acc : List Segment) (s : Segment) : List Segment :=
match acc.getLast? with
| none => [s]
| some last =>
    if s.start ≤ last.stop then
      acc.dropLast ++ [{ last with
                         stop := max last.stop s.stop,
                         motion := last.motion || s.motion,
                         objects := last.objects || s.objects }]
    else acc ++ [s]

/-- The whole merge phase of `process_video`, video.py lines 256-274: sort the
closed segments by `start` (Python's stable sort) and coalesce overlapping or
touching ones. -/
def mergeSegments (segs : List Segment) : List Segment :=
(segs.mergeSort segLe).foldl mergeStep []

/-- Adaptive frame-skip adjustment, video.py lines 74-81:
with `adaptive_skip`, `skip_frames` becomes `int(skip_frames * (fps / 30))`
for fps above 30, `max(1, int(skip_frames * (fps / 30)))` for fps below 15,
and is otherwise unchanged. -/
def adaptiveSkip (adaptive_skip : Bool) (skip_frames : Int) (fps : Rat) : Int :=
if adaptive_skip then
  if fps > 30 then ratTrunc ((skip_frames : Rat) * (fps / 30))
  else if fps < 15 then max 1 (ratTrunc ((skip_frames : Rat) * (fps / 30)))
  else skip_frames
else skip_frames

/-- `buffer_frames = int(buffer_seconds * fps)`, video.py line 84. -/
def bufferFramesOf (buffer_seconds fps : Rat) : Int :=
ratTrunc (buffer_seconds * fps)

/-- `"%02d" % n` for a non-negative count: zero-pad to two digits. -/
def pad2 (n : Nat) : String :=
if n < 10 then "0" ++ toString n else toString n

/-- `f"{n:03d}"` for a non-negative count: zero-pad to three digits. -/
def pad3 (n : Nat) : String :=
if n < 10 then "00" ++ toString n
else if n < 100 then "0" ++ toString n
else toString n

/-- Python's `str(datetime.timedelta(seconds=n))`: the seconds are normalized
with floor division into days plus a remainder in `[0, 86400)`; the remainder
prints as `H:MM:SS` with the hours NOT zero-padded; a non-zero day count is
prefixed as `D day, ` or `D days, `. -/
def timedeltaStr (n : Int) : String :=
let days : Int := Int.fdiv n 86400
let r : Nat := (Int.fmod n 86400).toNat
let core : String :=
  toString (r / 3600) ++ ":" ++ pad2 (r % 3600 / 60) ++ ":" ++ pad2 (r % 60)
if days = 0 then core
else toString days ++ " day" ++ (if days = 1 ∨ days = -1 then "" else "s") ++ ", " ++ core

/-- Python's `s.replace(':', '')` (video.py line 298): for a single-character
pattern and empty replacement this removes every colon from the string. -/
def stripColons (s : String) : String :=
⟨s.data.filter (fun c => c ≠ ':')⟩

/-- The clip base name built at video.py lines 296-303 from the source base
name, the 1-based three-digit-padded ordinal of the merged segment, the
colon-stripped `str(timedelta(...))` renderings of the start and end times
(already truncated to whole seconds by `int(...)`), and the `_obj` / `_mot`
suffixes.  `i` is the 0-based position in the merged list. -/
def segmentName (video_name : String) (i : Nat) (s1 s2 : Int)
    (objects motion : Bool) : String :=
video_name ++ "_seg" ++ pad3 (i + 1) ++ "_" ++ stripColons (timedeltaStr s1)
  ++ "_" ++ stripColons (timedeltaStr s2)
  ++ (if objects then "_obj" else "") ++ (if motion then "_mot" else "")

/-- The clip-information dict appended to `extracted_clips`
(video.py lines 324-331). -/
structure ExtractedClip where
  filename : String
  start_time : Rat
  end_time : Rat
  duration : Rat
  objects : Int
  motion : Int
deriving DecidableEq, Repr

/-- The clip-extraction loop of video.py lines 279-331, restricted to its pure
content: for each merged segment, in order, compute the duration, drop segments
under one second, and produce the clip record with its output path
(`os.path.join(output_dir, f"{segment_name}.mp4")` modelled as joining with a
slash).  The physical cut by the media I/O collaborator is out of scope. -/
def extractClips (video_name output_dir : String) (fps : Rat)
    (merged : List Segment) : List ExtractedClip :=
merged.enum.filterMap (fun p =>
  let segment_duration : Rat := ((p.2.stop - p.2.start : Int) : Rat) / fps
  if segment_duration < 1 then none
  else
    let start_time : Rat := (p.2.start : Rat) / fps
    let end_time : Rat := (p.2.stop : Rat) / fps
    let name : String :=
      segmentName video_name p.1 (ratTrunc start_time) (ratTrunc end_time)
        p.2.objects p.2.motion
    some { filename := output_dir ++ "/" ++ name ++ ".mp4",
           start_time := start_time,
           end_time := end_time,
           duration := segment_duration,
           objects := if p.2.objects then 1 else 0,
           motion := if p.2.motion then 1 else 0 })

/-- One invocation of the progress callback
(`progress_callback(progress, detection_count, segment_count)`). -/
structure ProgressEvent where
  progress : Int
  detections : Int
  segmentCount : Int
deriving DecidableEq, Repr

/-- `min(100, int((current_frame_idx / total_frames) * 100))`, video.py
line 120. -/
def progressOf (idx total_frames : Int) : Int :=
min 100 (ratTrunc ((idx : Rat) / (total_frames : Rat) * 100))

/-- Per-analyzed-frame loop state of `process_video`: the emitted progress
events, the running `detection_count`, and the segment-builder state.
`segment_count` always equals the number of closed segments, so the events
record `segments.length` directly. -/
structure LoopState where
  events : List ProgressEvent
  detections : Int
  bs : BuildState
deriving DecidableEq, Repr

/-- One iteration of the per-frame loop for an analyzed frame, in source
order (video.py lines 119-231): first the progress callback fires with the
counts accumulated so far, then the detection counter is bumped when the frame
has a surviving object detection, then the segment state machine steps. -/
def processFrameFull (buffer_frames total_frames : Int) (st : LoopState)
    (f : Frame) : LoopState :=
{ events := st.events ++
    [⟨progressOf f.idx total_frames, st.detections, (st.bs.segments.length : Int)⟩],
  detections := st.detections + (if f.objects then 1 else 0),
  bs := updateSegment buffer_frames st.bs f }

/-- The analysis-relevant data of a video that opened successfully: its fps,
its reported total frame count, and the stream of analyzed frames with their
fused motion/object flags. -/
structure VideoData where
  fps : Rat
  total_frames : Int
  frames : List Frame

/-- The pure content of `process_video` (video.py lines 59-344).  A video path
that cannot be opened (`not cap.isOpened()`) is modelled as `none`: the
function returns the empty clip list at once (line 62), before any progress
callback, segment computation, or clip write.  For an opened video it runs the
frame loop, closes a still-open segment, merges, extracts clips, and fires the
final 100% progress callback (line 340).  The returned pair is (extracted
clips, progress-callback invocations); the clip list also enumerates every
file written into the output directory. -/
def processVideo (video : Option VideoData) (video_name output_dir : String)
    (buffer_seconds : Rat) : List ExtractedClip × List ProgressEvent :=
match video with
| none => ([], [])
| some v =>
    let B := bufferFramesOf buffer_seconds v.fps
    let final := v.frames.foldl (processFrameFull B v.total_frames) ⟨[], 0, ⟨[], none⟩⟩
    let closed := finalizeSegments B v.total_frames final.bs
    let merged := mergeSegments closed
    let clips := extractClips video_name output_dir v.fps merged
    (clips, final.events ++ [⟨100, final.detections, (closed.length : Int)⟩])

/-- One row of `processing_log.csv` (csv_logger.py lines 49, 56, 99): all cells
are strings; `segment_files` holds the JSON serialization of the filename
list. -/
structure ProcessingRecord where
  filename : String
  processed_datetime : String
  objects : String
  motion : String
  segment_files : String
deriving DecidableEq, Repr

/-- The row first written for a newly seen file (csv_logger.py lines 62-68 and
117-123): every cell beyond the filename is empty. -/
def emptyRow (filename : String) : ProcessingRecord :=
⟨filename, "", "", "", ""⟩

/-- `json.dumps` of a list of plain strings (csv_logger.py line 94), for
filenames without characters needing JSON escapes. -/
def jsonDumps (l : List String) : String :=
"[" ++ String.intercalate ", " (l.map (fun s => "\"" ++ s ++ "\"")) ++ "]"

/-- The `data` dict passed to `update_processing_log`: the keys that may be
present (csv_logger.py line 86); an absent key leaves the row's cell
unchanged. -/
structure UpdateData where
  processed_datetime : Option String
  objects : Option String
  motion : Option String
  segment_files : Option (List String)
deriving DecidableEq, Repr

/-- `for key, value in data.items(): row[key] = value` (csv_logger.py
lines 107-108 and 125-126), with the `segment_files` list serialized to JSON
first (lines 93-94). -/
def applyData (row : ProcessingRecord) (data : UpdateData) : ProcessingRecord :=
{ filename := row.filename,
  processed_datetime := data.processed_datetime.getD row.processed_datetime,
  objects := data.objects.getD row.objects,
  motion := data.motion.getD row.motion,
  segment_files := (data.segment_files.map jsonDumps).getD row.segment_files }

/-- `update_processing_log` (csv_logger.py lines 79-130), as a function from
the parsed backing table to the rewritten table that atomically replaces it
(`os.replace`, line 130): every row whose filename matches is updated with the
given data; if no row matched, a fresh row carrying the filename and the data
is appended. -/
def update_processing_log (table : List ProcessingRecord) (filename : String)
    (data : UpdateData) : List ProcessingRecord :=
let rewritten := table.map (fun row =>
  if row.filename = filename then applyData row data else row)
let updated := table.any (fun row => row.filename == filename)
if updated then rewritten else rewritten ++ [applyData (emptyRow filename) data]

/-- Dictionary lookup in the in-memory `processed_files` table.  The Python
code builds a dict keyed by filename while reading rows in order, so a later
row with the same filename wins; hence the lookup takes the LAST matching
row. -/
def lookupRecord (log : List ProcessingRecord) (f : String) : Option ProcessingRecord :=
log.reverse.find? (fun r => r.filename == f)

/-- `initialize_processing_log` (csv_logger.py lines 13-76), as a function of
the already-persisted rows and the video filenames of this run: every filename
without a row gets a fresh empty row appended (lines 59-71).  The JSON decode
of `segment_files` into a list (lines 39-43) does not affect the fields the
orchestrator consults and is left in string form. -/
def initialize_processing_log (existing : List ProcessingRecord)
    (video_files : List String) : List ProcessingRecord :=
video_files.foldl (fun log vf =>
  if (lookupRecord log vf).isSome then log else log ++ [emptyRow vf]) existing

/-- The work-list computation of `process_subfolder` (processor.py
lines 66-82): a file is skipped iff its record exists and its
`processed_datetime` cell is truthy, i.e. non-empty; the surviving files are
then sorted by name. -/
def files_to_process (log : List ProcessingRecord) (video_files : List String) :
    List String :=
(video_files.filter (fun vf =>
  match lookupRecord log vf with
  | some r => r.processed_datetime == ""
  | none => true)).mergeSort (fun a b => a ≤ b)

/-- The per-file task `process_single_video` (processor.py lines 140-254),
with the fallible body (the `process_video` call and everything the `try`
protects) abstracted as its outcome: `Except.ok clips` when the pipeline
returned, `Except.error msg` when any exception was raised.  The result is
(the data written to the processing log, the clips handed back, the error
reported to the orchestrator).  On success the log gets the completion time
and the summed per-clip object/motion counts plus the clip basenames
(lines 187-208); on an exception the log gets an empty `processed_datetime`
and zeroed counts (lines 244-251) and the task returns no clips and the
message (line 254). -/
def process_single_video (now : String) (outcome : Except String (List ExtractedClip)) :
    UpdateData × List ExtractedClip × Option String :=
match outcome with
| Except.ok clips =>
    let total_objects := clips.foldl (fun a c => a + c.objects) 0
    let total_motion := clips.foldl (fun a c => a + c.motion) 0
    let segment_filenames := clips.map (fun c =>
      ((c.filename.splitOn "/").getLastD ""))
    (⟨some now, some (toString total_objects), some (toString total_motion),
      some segment_filenames⟩, clips, none)
| Except.error e =>
    (⟨some "", some "0", some "0", some []⟩, [], some e)

/-- One result-collection step of the orchestrator (processor.py
lines 290-305): `all_clips.extend(clips)` always happens, and
`errors.append((video_name, error))` happens exactly when the task reported
an error. -/
def batchStep (now : String)
    (acc : List ExtractedClip × List (String × String))
    (t : String × Except String (List ExtractedClip)) :
    List ExtractedClip × List (String × String) :=
match (process_single_video now t.2).2.2 with
| some e => (acc.1 ++ (process_single_video now t.2).2.1, acc.2 ++ [(t.1, e)])
| none => (acc.1 ++ (process_single_video now t.2).2.1, acc.2)

/-- The orchestrator's aggregation loop (processor.py lines 280-305): collect
every task's clips into `all_clips` and every reported error into `errors`,
never stopping the batch.  Tasks are given in completion order. -/
def runBatch (now : String) (tasks : List (String × Except String (List ExtractedClip))) :
    List ExtractedClip × List (String × String) :=
tasks.foldl (batchStep now) ([], [])

/-- C4, counterexample: at fps = 35 (> 30) and nominal stride S = 10 the code
computes `int(10 * (35 / 30)) = 11`, which differs from the claim's effective
stride `S * (fps / 30) = 35/3`; the claim omits the truncation. -/
theorem c4_adaptive_skip_counterexample :
    (35 : Rat) > 30 ∧ adaptiveSkip true 10 35 = 11 ∧
      ((adaptiveSkip true 10 35 : Int) : Rat) ≠ (10 : Rat) * ((35 : Rat) / 30) := by
  have h : adaptiveSkip true 10 35 = 11 := by
    rw [adaptiveSkip, if_pos rfl, if_pos (by norm_num), ratTrunc,
      if_pos (by norm_num)]
    norm_num
  refine ⟨by norm_num, h, ?_⟩
  rw [h]
  norm_num

/-- C4, amended: with adaptive skip enabled the effective stride is the
claim's formula with Python's `int()` truncation toward zero applied to the
scaled product: `S' = int(S * (fps/30))` for fps > 30,
`S' = max(1, int(S * (fps/30)))` for fps < 15, and `S' = S` otherwise; in
particular fps=60, S=15 gives 30, fps=10, S=15 gives 5, and fps=24, S=15
leaves 15. -/
theorem c4_adaptive_skip_amended (S : Int) (fps : Rat) :
    (fps > 30 → adaptiveSkip true S fps = ratTrunc ((S : Rat) * (fps / 30)))
    ∧ (fps < 15 →
        adaptiveSkip true S fps = max 1 (ratTrunc ((S : Rat) * (fps / 30))))
    ∧ (¬ fps > 30 → ¬ fps < 15 → adaptiveSkip true S fps = S)
    ∧ adaptiveSkip true 15 60 = 30 ∧ adaptiveSkip true 15 10 = 5
    ∧ adaptiveSkip true 15 24 = 15 := by
  refine ⟨?_, ?_, ?_, ?_, ?_, ?_⟩
  · intro h
    rw [adaptiveSkip, if_pos rfl, if_pos h]
  · intro h
    have h30 : ¬ fps > 30 := by
      intro hc
      exact absurd (lt_trans hc h) (by norm_num)
    rw [adaptiveSkip, if_pos rfl, if_neg h30, if_pos h]
  · intro h30 h15
    rw [adaptiveSkip, if_pos rfl, if_neg h30, if_neg h15]
  · rw [adaptiveSkip, if_pos rfl, if_pos (by norm_num), ratTrunc,
      if_pos (by norm_num)]
    norm_num
  · rw [adaptiveSkip, if_pos rfl, if_neg (by norm_num), if_pos (by norm_num),
      ratTrunc, if_pos (by norm_num)]
    norm_num
  · rw [adaptiveSkip, if_pos rfl, if_neg (by norm_num), if_neg (by norm_num)]

/-- Witness for C4 (amended) at fps = 60, S = 15: the high-fps branch applies
and yields stride 30. -/
theorem c4_adaptive_skip_amended_witness :
    ((60 : Rat) > 30)
    ∧ adaptiveSkip true 15 60 = ratTrunc ((15 : Rat) * ((60 : Rat) / 30))
    ∧ adaptiveSkip true 15 60 = 30 :=
  ⟨by norm_num, (c4_adaptive_skip_amended 15 60).1 (by norm_num),
    (c4_adaptive_skip_amended 15 60).2.2.2.1⟩

/-- C9: a video that cannot be opened (`cap.isOpened()` false) makes
`process_video` return the empty clip list immediately: no exception
propagates, no progress callback fires, no clip is extracted into the output
directory. -/
theorem c9_unopenable_video_no_effects (video_name output_dir : String)
    (buffer_seconds : Rat) :
    processVideo none video_name output_dir buffer_seconds = ([], []) := rfl

/-- C5: after `initialize_processing_log`, a file whose record carries a
non-empty `processed_datetime` is excluded from the run's work list, and a
file whose record carries an empty `processed_datetime` (as written after a
recorded failure) is included in it. -/
theorem c5_resumability (existing : List ProcessingRecord)
    (video_files : List String) (f : String) (r : ProcessingRecord)
    (hf : f ∈ video_files)
    (hr : lookupRecord (initialize_processing_log existing video_files) f = some r) :
    (r.processed_datetime ≠ "" →
      f ∉ files_to_process (initialize_processing_log existing video_files) video_files)
    ∧ (r.processed_datetime = "" →
      f ∈ files_to_process (initialize_processing_log existing video_files) video_files) := by
  constructor
  · intro hne hmem
    simp only [files_to_process, List.mem_mergeSort, List.mem_filter, hr,
      beq_iff_eq] at hmem
    exact hne hmem.2
  · intro he
    simp only [files_to_process, List.mem_mergeSort, List.mem_filter, hr,
      beq_iff_eq]
    exact ⟨hf, he⟩

/-- Witness for C5 at a concrete log: `a.mp4` was completed (non-empty
timestamp) and is excluded; `b.mp4` is new (empty timestamp) and included. -/
theorem c5_resumability_witness :
    (("a.mp4" : String) ∈ ["a.mp4", "b.mp4"]
      ∧ lookupRecord
          (initialize_processing_log [⟨"a.mp4", "2024-01-01 00:00:00", "3", "2", "[]"⟩]
            ["a.mp4", "b.mp4"]) "a.mp4"
          = some ⟨"a.mp4", "2024-01-01 00:00:00", "3", "2", "[]"⟩
      ∧ (⟨"a.mp4", "2024-01-01 00:00:00", "3", "2", "[]"⟩ : ProcessingRecord).processed_datetime ≠ "")
    ∧ "a.mp4" ∉ files_to_process
        (initialize_processing_log [⟨"a.mp4", "2024-01-01 00:00:00", "3", "2", "[]"⟩]
          ["a.mp4", "b.mp4"]) ["a.mp4", "b.mp4"] :=
  ⟨⟨by decide, by decide, by decide⟩,
    (c5_resumability [⟨"a.mp4", "2024-01-01 00:00:00", "3", "2", "[]"⟩]
      ["a.mp4", "b.mp4"] "a.mp4" ⟨"a.mp4", "2024-01-01 00:00:00", "3", "2", "[]"⟩
      (by decide) (by decide)).1 (by decide)⟩

/-- C10: when `update_processing_log` is called for a filename that has no row
in the backing table, the update is not dropped: the rewritten table is the
original rows followed by one appended row that carries the filename and the
given data. -/
theorem c10_missing_row_appended (table : List ProcessingRecord)
    (filename : String) (data : UpdateData)
    (h : ∀ row ∈ table, row.filename ≠ filename) :
    update_processing_log table filename data
        = table ++ [applyData (emptyRow filename) data]
      ∧ (applyData (emptyRow filename) data).filename = filename
      ∧ (applyData (emptyRow filename) data).processed_datetime
          = data.processed_datetime.getD ""
      ∧ (applyData (emptyRow filename) data).objects = data.objects.getD ""
      ∧ (applyData (emptyRow filename) data).motion = data.motion.getD ""
      ∧ (applyData (emptyRow filename) data).segment_files
          = (data.segment_files.map jsonDumps).getD "" := by
  refine ⟨?_, rfl, rfl, rfl, rfl, rfl⟩
  have hany : (table.any fun row => row.filename == filename) = false := by
    rw [List.any_eq_false]
    intro row hrow
    simpa using h row hrow
  have hmap : (table.map fun row =>
      if row.filename = filename then applyData row data else row) = table := by
    have hc := List.map_congr_left (l := table)
      (f := fun row => if row.filename = filename then applyData row data else row)
      (g := fun row => row) (fun row hrow => if_neg (h row hrow))
    simpa using hc
  simp only [update_processing_log, hany, hmap, Bool.false_eq_true, if_false]

/-- Witness for C10: updating a one-row table for an absent filename appends
a fresh row with that filename and the supplied data. -/
theorem c10_missing_row_appended_witness :
    (∀ row ∈ ([⟨"a.mp4", "", "", "", ""⟩] : List ProcessingRecord),
        row.filename ≠ "b.mp4")
    ∧ update_processing_log [⟨"a.mp4", "", "", "", ""⟩] "b.mp4"
          ⟨some "2024-01-02 00:00:00", some "1", some "2", some ["b_seg001.mp4"]⟩
        = [⟨"a.mp4", "", "", "", ""⟩]
          ++ [applyData (emptyRow "b.mp4")
              ⟨some "2024-01-02 00:00:00", some "1", some "2", some ["b_seg001.mp4"]⟩] :=
  ⟨by decide,
    (c10_missing_row_appended [⟨"a.mp4", "", "", "", ""⟩] "b.mp4"
      ⟨some "2024-01-02 00:00:00", some "1", some "2", some ["b_seg001.mp4"]⟩
      (by decide)).1⟩

/-- A batch-collection step from any accumulator splits into the accumulator
plus the step from the empty accumulator. -/
theorem batchStep_split (now : String)
    (acc : List ExtractedClip × List (String × String))
    (t : String × Except String (List ExtractedClip)) :
    batchStep now acc t =
      (acc.1 ++ (batchStep now ([], []) t).1, acc.2 ++ (batchStep now ([], []) t).2) := by
  rw [batchStep, batchStep]
  cases (process_single_video now t.2).2.2 <;> simp

/-- Folding the batch-collection step from any accumulator appends the run
from the empty accumulator. -/
theorem foldl_batchStep_split (now : String)
    (tasks : List (String × Except String (List ExtractedClip))) :
    ∀ acc, tasks.foldl (batchStep now) acc =
      (acc.1 ++ (runBatch now tasks).1, acc.2 ++ (runBatch now tasks).2) := by
  induction tasks with
  | nil => intro acc; simp [runBatch]
  | cons t ts ih =>
      intro acc
      have h1 : List.foldl (batchStep now) acc (t :: ts)
          = List.foldl (batchStep now) (batchStep now acc t) ts := rfl
      have h2 : runBatch now (t :: ts)
          = List.foldl (batchStep now) (batchStep now ([], []) t) ts := rfl
      rw [h1, h2, ih, ih, batchStep_split now acc t]
      simp

/-- `runBatch` distributes over list concatenation. -/
theorem runBatch_append (now : String)
    (xs ys : List (String × Except String (List ExtractedClip))) :
    runBatch now (xs ++ ys) =
      ((runBatch now xs).1 ++ (runBatch now ys).1,
       (runBatch now xs).2 ++ (runBatch now ys).2) := by
  rw [runBatch, List.foldl_append, foldl_batchStep_split]
  rfl

/-- C6: an exception raised in one file's pipeline is absorbed at the file
task: the log for that file is rewritten with an empty `processed_datetime`,
zeroed counts and an empty (serialized) segment list, the task yields no clips
and only the `(filename, message)` pair, and the surrounding batch still
collects the results of every other file exactly as it would without the
failure. -/
theorem c6_per_file_error_recovery (now name msg : String)
    (xs ys : List (String × Except String (List ExtractedClip)))
    (table : List ProcessingRecord) :
    process_single_video now (Except.error msg)
        = (⟨some "", some "0", some "0", some []⟩, [], some msg)
    ∧ (∀ row ∈ update_processing_log table name
          (process_single_video now (Except.error msg)).1,
        row.filename = name →
          row.processed_datetime = "" ∧ row.objects = "0" ∧ row.motion = "0"
            ∧ row.segment_files = "[]")
    ∧ runBatch now (xs ++ (name, Except.error msg) :: ys)
        = ((runBatch now xs).1 ++ (runBatch now ys).1,
           (runBatch now xs).2 ++ (name, msg) :: (runBatch now ys).2) := by
  refine ⟨rfl, ?_, ?_⟩
  · intro row hrow hname
    simp only [update_processing_log] at hrow
    by_cases hu : (table.any fun r => r.filename == name) = true
    · rw [if_pos hu] at hrow
      rcases List.mem_map.mp hrow with ⟨orig, horig, heq⟩
      by_cases hf : orig.filename = name
      · rw [if_pos hf] at heq
        rw [← heq]
        exact ⟨rfl, rfl, rfl, rfl⟩
      · rw [if_neg hf] at heq
        exact absurd (heq ▸ hname) hf
    · rw [if_neg hu] at hrow
      rcases List.mem_append.mp hrow with hl | hr
      · rcases List.mem_map.mp hl with ⟨orig, horig, heq⟩
        by_cases hf : orig.filename = name
        · rw [if_pos hf] at heq
          rw [← heq]
          exact ⟨rfl, rfl, rfl, rfl⟩
        · rw [if_neg hf] at heq
          exact absurd (heq ▸ hname) hf
      · rcases List.mem_singleton.mp hr with rfl
        exact ⟨rfl, rfl, rfl, rfl⟩
  · rw [runBatch_append]
    have hsingle : runBatch now ((name, Except.error msg) :: ys)
        = ((runBatch now ys).1, (name, msg) :: (runBatch now ys).2) := by
      rw [runBatch, List.foldl_cons, foldl_batchStep_split]
      simp [batchStep, process_single_video]
    rw [hsingle]

/-- Witness for C6 at a concrete batch: the file `bad.mp4` fails with
"decode error" between two successful files, its log row is cleared for retry,
and both neighbours' results are still collected. -/
theorem c6_per_file_error_recovery_witness :
    process_single_video "2024-01-01 00:00:00" (Except.error "decode error")
        = (⟨some "", some "0", some "0", some []⟩, [], some "decode error")
    ∧ (∀ row ∈ update_processing_log [⟨"bad.mp4", "", "", "", ""⟩] "bad.mp4"
          (process_single_video "2024-01-01 00:00:00"
            (Except.error "decode error")).1,
        row.filename = "bad.mp4" →
          row.processed_datetime = "" ∧ row.objects = "0" ∧ row.motion = "0"
            ∧ row.segment_files = "[]")
    ∧ runBatch "2024-01-01 00:00:00"
          ([("a.mp4", Except.ok [])] ++ ("bad.mp4", Except.error "decode error")
            :: [("c.mp4", Except.ok [])])
        = ((runBatch "2024-01-01 00:00:00" [("a.mp4", Except.ok [])]).1
            ++ (runBatch "2024-01-01 00:00:00" [("c.mp4", Except.ok [])]).1,
           (runBatch "2024-01-01 00:00:00" [("a.mp4", Except.ok [])]).2
            ++ ("bad.mp4", "decode error")
              :: (runBatch "2024-01-01 00:00:00" [("c.mp4", Except.ok [])]).2) :=
  c6_per_file_error_recovery "2024-01-01 00:00:00" "bad.mp4" "decode error"
    [("a.mp4", Except.ok [])] [("c.mp4", Except.ok [])]
    [⟨"bad.mp4", "", "", "", ""⟩]

/-- With no open segment, a run of inactive frames leaves the builder state
unchanged. -/
theorem foldl_inactive_idle (B : Int) (l : List Frame) (segs : List Segment)
    (h : ∀ f ∈ l, f.motion = false ∧ f.objects = false) :
    l.foldl (updateSegment B) ⟨segs, none⟩ = ⟨segs, none⟩ := by
  induction l with
  | nil => rfl
  | cons f fs ih =>
      have hf := h f (List.mem_cons_self f fs)
      have hstep : updateSegment B ⟨segs, none⟩ f = ⟨segs, none⟩ := by
        rw [updateSegment, hf.1, hf.2]
        rfl
      rw [List.foldl_cons, hstep]
      exact ih (fun g hg => h g (List.mem_cons_of_mem f hg))

/-- With an open segment, a run of inactive frames either leaves the state
unchanged or closes the segment with the trailing buffer and returns to
idle. -/
theorem foldl_inactive_open (B : Int) (l : List Frame) (segs : List Segment)
    (cur : Segment) (h : ∀ f ∈ l, f.motion = false ∧ f.objects = false) :
    l.foldl (updateSegment B) ⟨segs, some cur⟩ = ⟨segs, some cur⟩
    ∨ l.foldl (updateSegment B) ⟨segs, some cur⟩
        = ⟨segs ++ [{ cur with stop := cur.stop + B }], none⟩ := by
  induction l with
  | nil => exact Or.inl rfl
  | cons f fs ih =>
      have hf := h f (List.mem_cons_self f fs)
      have htail : ∀ g ∈ fs, g.motion = false ∧ g.objects = false :=
        fun g hg => h g (List.mem_cons_of_mem f hg)
      by_cases hgap : f.idx - cur.stop > B
      · have hstep : updateSegment B ⟨segs, some cur⟩ f
            = ⟨segs ++ [{ cur with stop := cur.stop + B }], none⟩ := by
          rw [updateSegment, hf.1, hf.2]
          simp only [Bool.or_self]
          rw [if_neg (by simp), if_pos hgap]
        rw [List.foldl_cons, hstep]
        exact Or.inr (foldl_inactive_idle B fs _ htail)
      · have hstep : updateSegment B ⟨segs, some cur⟩ f = ⟨segs, some cur⟩ := by
          rw [updateSegment, hf.1, hf.2]
          simp only [Bool.or_self]
          rw [if_neg (by simp), if_neg hgap]
        rw [List.foldl_cons, hstep]
        exact ih htail

/-- A singleton segment list merges to itself. -/
theorem mergeSegments_singleton (s : Segment) : mergeSegments [s] = [s] := by
  rw [mergeSegments, List.mergeSort_singleton]
  rfl

/-- C2: in a stream whose only active analyzed frame sits at index 100, with
`buffer_seconds = 5` and fps = 10 (`buffer_frames = int(5 * 10) = 50`) and a
total frame count of at least 151, processing closes exactly one segment
`[50, 150]`, and the merged list is that same single segment. -/
theorem c2_isolated_frame_segment (pre post : List Frame) (m o : Bool)
    (total : Int)
    (hpre : ∀ f ∈ pre, f.motion = false ∧ f.objects = false)
    (hpost : ∀ f ∈ post, f.motion = false ∧ f.objects = false)
    (hmo : (m || o) = true) (htotal : 151 ≤ total) :
    finalizeSegments (bufferFramesOf 5 10) total
        (buildSegments (bufferFramesOf 5 10) (pre ++ ⟨100, m, o⟩ :: post))
      = [⟨50, 150, m, o⟩]
    ∧ mergeSegments (finalizeSegments (bufferFramesOf 5 10) total
        (buildSegments (bufferFramesOf 5 10) (pre ++ ⟨100, m, o⟩ :: post)))
      = [⟨50, 150, m, o⟩] := by
  have hB : bufferFramesOf 5 10 = 50 := by
    rw [bufferFramesOf, ratTrunc, if_pos (by norm_num)]
    norm_num
  have hfin : finalizeSegments (bufferFramesOf 5 10) total
      (buildSegments (bufferFramesOf 5 10) (pre ++ ⟨100, m, o⟩ :: post))
      = [⟨50, 150, m, o⟩] := by
    rw [hB, buildSegments, List.foldl_append,
      foldl_inactive_idle 50 pre [] hpre, List.foldl_cons]
    have hstep : updateSegment 50 ⟨[], none⟩ ⟨100, m, o⟩
        = ⟨[], some ⟨50, 100, m, o⟩⟩ := by
      rw [updateSegment]
      simp only [hmo, if_pos]
      norm_num
    rw [hstep]
    rcases foldl_inactive_open 50 post [] ⟨50, 100, m, o⟩ hpost with hcase | hcase
    · rw [hcase, finalizeSegments]
      simp only
      have : min (100 + 50) (total - 1) = 150 := by omega
      rw [this]
      rfl
    · rw [hcase]
      norm_num [finalizeSegments]
  exact ⟨hfin, by rw [hfin, mergeSegments_singleton]⟩

/-- Witness for C2: the one-frame analyzed stream consisting of the active
frame at index 100, with 151 total frames. -/
theorem c2_isolated_frame_segment_witness :
    ((∀ f ∈ ([] : List Frame), f.motion = false ∧ f.objects = false)
      ∧ ((true || false) = true) ∧ (151 : Int) ≤ 151)
    ∧ finalizeSegments (bufferFramesOf 5 10) 151
        (buildSegments (bufferFramesOf 5 10) ([] ++ ⟨100, true, false⟩ :: []))
      = [⟨50, 150, true, false⟩] :=
  ⟨⟨by decide, by decide, by decide⟩,
    (c2_isolated_frame_segment [] [] true false 151 (by decide) (by decide)
      (by decide) (by decide)).1⟩

/-- A run of `len` consecutive analyzed frames starting at index `a`, all with
both activity flags false. -/
def inactiveRun (a : Int) : Nat → List Frame
| 0 => []
| n + 1 => ⟨a, false, false⟩ :: inactiveRun (a + 1) n

/-- Two single-frame activity bursts (motion only) at indices 0 and `gap + 1`,
separated by an inactive gap of exactly `gap` analyzed frames. -/
def twoBurstStream (gap : Nat) : List Frame :=
⟨0, true, false⟩ :: (inactiveRun 1 gap ++ [⟨(gap : Int) + 1, true, false⟩])

/-- Frames of an inactive run are inactive and have indices in `[a, a+n)`. -/
theorem mem_inactiveRun (a : Int) (n : Nat) :
    ∀ f ∈ inactiveRun a n,
      f.motion = false ∧ f.objects = false ∧ a ≤ f.idx ∧ f.idx < a + n := by
  induction n generalizing a with
  | zero => intro f hf; cases hf
  | succ n ih =>
      intro f hf
      rw [inactiveRun] at hf
      rcases List.mem_cons.mp hf with rfl | hmem
      · exact ⟨rfl, rfl, le_refl _, by push_cast; omega⟩
      · obtain ⟨h1, h2, h3, h4⟩ := ih (a + 1) f hmem
        refine ⟨h1, h2, by omega, ?_⟩
        push_cast at h4 ⊢
        omega

/-- An inactive run splits at any length. -/
theorem inactiveRun_append (a : Int) (m n : Nat) :
    inactiveRun a (m + n) = inactiveRun a m ++ inactiveRun (a + (m : Int)) n := by
  induction m generalizing a with
  | zero => simp [inactiveRun]
  | succ m ih =>
      rw [Nat.succ_add]
      show Frame.mk a false false :: inactiveRun (a + 1) (m + n) = _
      rw [ih (a + 1)]
      have hc : a + 1 + (m : Int) = a + ((m : Nat) + 1 : Nat) := by push_cast; ring
      rw [hc]
      rfl

/-- With an open segment, a run of inactive frames whose indices all stay
within the buffer of the segment's end leaves the state unchanged. -/
theorem foldl_inactive_open_stay (B : Int) (l : List Frame) (segs : List Segment)
    (cur : Segment)
    (h : ∀ f ∈ l, f.motion = false ∧ f.objects = false ∧ f.idx - cur.stop ≤ B) :
    l.foldl (updateSegment B) ⟨segs, some cur⟩ = ⟨segs, some cur⟩ := by
  induction l with
  | nil => rfl
  | cons f fs ih =>
      obtain ⟨h1, h2, h3⟩ := h f (List.mem_cons_self f fs)
      have hstep : updateSegment B ⟨segs, some cur⟩ f = ⟨segs, some cur⟩ := by
        rw [updateSegment, h1, h2]
        simp only [Bool.or_self]
        rw [if_neg (by simp), if_neg (by omega)]
      rw [List.foldl_cons, hstep]
      exact ih (fun g hg => h g (List.mem_cons_of_mem f hg))

/-- Step equation: an active frame with no open segment opens one. -/
theorem updateSegment_active_idle (B : Int) (segs : List Segment) (f : Frame)
    (h : (f.motion || f.objects) = true) :
    updateSegment B ⟨segs, none⟩ f
      = ⟨segs, some ⟨max 0 (f.idx - B), f.idx, f.motion, f.objects⟩⟩ := by
  rw [updateSegment, if_pos h]

/-- Step equation: an active frame extends an open segment. -/
theorem updateSegment_active_open (B : Int) (segs : List Segment) (cur : Segment)
    (f : Frame) (h : (f.motion || f.objects) = true) :
    updateSegment B ⟨segs, some cur⟩ f
      = ⟨segs, some { cur with
                      stop := f.idx,
                      motion := cur.motion || f.motion,
                      objects := cur.objects || f.objects }⟩ := by
  rw [updateSegment, if_pos h]

/-- Step equation: an inactive frame with an open segment closes it exactly
when the gap exceeds the buffer. -/
theorem updateSegment_inactive_open (B : Int) (segs : List Segment) (cur : Segment)
    (f : Frame) (h1 : f.motion = false) (h2 : f.objects = false) :
    updateSegment B ⟨segs, some cur⟩ f
      = if f.idx - cur.stop > B
        then ⟨segs ++ [{ cur with stop := cur.stop + B }], none⟩
        else ⟨segs, some cur⟩ := by
  rw [updateSegment, h1, h2]
  rfl

/-- Fold equation: `mergeStep` on an empty accumulator. -/
theorem mergeStep_nil (s : Segment) : mergeStep [] s = [s] := rfl

/-- Fold equation: `mergeStep` on a non-empty accumulator compares against its
last element. -/
theorem mergeStep_concat (acc : List Segment) (last s : Segment) :
    mergeStep (acc ++ [last]) s
      = if s.start ≤ last.stop
        then acc ++ [{ last with
                       stop := max last.stop s.stop,
                       motion := last.motion || s.motion,
                       objects := last.objects || s.objects }]
        else (acc ++ [last]) ++ [s] := by
  rw [mergeStep, List.getLast?_concat, List.dropLast_concat]

/-- C1, counterexample: with `buffer_frames = 2` and an inactive gap of
exactly `buffer_frames + 1 = 3` frames between the bursts at indices 0 and 4,
the builder does close two segments, `[0,2]` and `[2,6]`, but the merge phase
re-joins them (`2 ≤ 2`), so the FINAL merged segment list has one segment,
not the two the claim asserts. -/
theorem c1_gap_counterexample :
    finalizeSegments 2 10 (buildSegments 2 (twoBurstStream 3))
        = [⟨0, 2, true, false⟩, ⟨2, 6, true, false⟩]
    ∧ mergeSegments (finalizeSegments 2 10 (buildSegments 2 (twoBurstStream 3)))
        = [⟨0, 6, true, false⟩] := by
  have h1 : finalizeSegments 2 10 (buildSegments 2 (twoBurstStream 3))
      = [⟨0, 2, true, false⟩, ⟨2, 6, true, false⟩] := by decide
  refine ⟨h1, ?_⟩
  rw [h1, mergeSegments, List.mergeSort_of_sorted (by decide)]
  decide

/-- C1, amended: for two single-frame activity bursts in one analyzed-frame
stream, an inactive gap of exactly `buffer_frames` frames yields ONE segment
in the final merged list; a gap of `buffer_frames + 1` frames makes the
builder close TWO segments, but (for `buffer_frames ≥ 2`) the merge phase
re-joins them into one, because the first segment's trailing buffer reaches
past the second segment's leading buffer; the final merged list only keeps
two segments once the gap reaches `2 * buffer_frames`. -/
theorem c1_gap_amended (b : Nat) (hb : 2 ≤ b) (total : Int)
    (htotal : 3 * (b : Int) + 2 ≤ total) :
    mergeSegments (finalizeSegments (b : Int) total
        (buildSegments (b : Int) (twoBurstStream b)))
      = [⟨0, 2 * (b : Int) + 1, true, false⟩]
    ∧ finalizeSegments (b : Int) total
        (buildSegments (b : Int) (twoBurstStream (b + 1)))
      = [⟨0, (b : Int), true, false⟩, ⟨2, 2 * (b : Int) + 2, true, false⟩]
    ∧ mergeSegments (finalizeSegments (b : Int) total
        (buildSegments (b : Int) (twoBurstStream (b + 1))))
      = [⟨0, 2 * (b : Int) + 2, true, false⟩]
    ∧ mergeSegments (finalizeSegments (b : Int) total
        (buildSegments (b : Int) (twoBurstStream (2 * b))))
      = [⟨0, (b : Int), true, false⟩,
         ⟨(b : Int) + 1, 3 * (b : Int) + 1, true, false⟩] := by
  have hstep0 : updateSegment (b : Int) ⟨[], none⟩ ⟨0, true, false⟩
      = ⟨[], some ⟨0, 0, true, false⟩⟩ := by
    rw [updateSegment_active_idle (b : Int) [] ⟨0, true, false⟩ rfl]
    have hm : max 0 ((0 : Int) - (b : Int)) = 0 := by omega
    simp [hm]
  have hstay : ∀ g : Nat, g ≤ b →
      List.foldl (updateSegment (b : Int)) ⟨[], some ⟨0, 0, true, false⟩⟩
        (inactiveRun 1 g) = ⟨[], some ⟨0, 0, true, false⟩⟩ := by
    intro g hg
    refine foldl_inactive_open_stay _ _ _ _ (fun f hf => ?_)
    obtain ⟨h1, h2, h3, h4⟩ := mem_inactiveRun 1 g f hf
    refine ⟨h1, h2, ?_⟩
    show f.idx - (0 : Int) ≤ (b : Int)
    have hgb : (g : Int) ≤ (b : Int) := by exact_mod_cast hg
    omega
  have hclose : updateSegment (b : Int) ⟨[], some ⟨0, 0, true, false⟩⟩
      ⟨1 + (b : Int), false, false⟩ = ⟨[⟨0, (b : Int), true, false⟩], none⟩ := by
    rw [updateSegment_inactive_open _ _ _ _ rfl rfl,
      if_pos (by show 1 + (b : Int) - 0 > (b : Int); omega)]
    simp
  have h5 : List.foldl (updateSegment (b : Int)) ⟨[], some ⟨0, 0, true, false⟩⟩
      [⟨1 + (b : Int), false, false⟩] = ⟨[⟨0, (b : Int), true, false⟩], none⟩ := by
    rw [List.foldl_cons, hclose, List.foldl_nil]
  have hsplit1 : inactiveRun 1 (b + 1)
      = inactiveRun 1 b ++ [⟨1 + (b : Int), false, false⟩] := by
    rw [inactiveRun_append 1 b 1]
    rfl
  -- part (a): gap of exactly b
  have hbuildA : buildSegments (b : Int) (twoBurstStream b)
      = ⟨[], some ⟨0, (b : Int) + 1, true, false⟩⟩ := by
    rw [twoBurstStream, buildSegments, List.foldl_cons, hstep0, List.foldl_append,
      hstay b le_rfl, List.foldl_cons,
      updateSegment_active_open (b : Int) [] ⟨0, 0, true, false⟩
        ⟨(b : Int) + 1, true, false⟩ rfl,
      List.foldl_nil]
    simp
  have hfinA : finalizeSegments (b : Int) total
      (buildSegments (b : Int) (twoBurstStream b))
      = [⟨0, 2 * (b : Int) + 1, true, false⟩] := by
    rw [hbuildA, finalizeSegments]
    have hmin : min ((b : Int) + 1 + (b : Int)) (total - 1) = 2 * (b : Int) + 1 := by
      omega
    simp [hmin]
  -- part (b): gap of b + 1, builder output
  have hcast : (((b + 1 : Nat)) : Int) + 1 = (b : Int) + 2 := by push_cast; ring
  have hopen2 : updateSegment (b : Int) ⟨[⟨0, (b : Int), true, false⟩], none⟩
      ⟨(b : Int) + 2, true, false⟩
      = ⟨[⟨0, (b : Int), true, false⟩], some ⟨2, (b : Int) + 2, true, false⟩⟩ := by
    rw [updateSegment_active_idle (b : Int) [⟨0, (b : Int), true, false⟩]
      ⟨(b : Int) + 2, true, false⟩ rfl]
    have hm : max 0 ((b : Int) + 2 - (b : Int)) = 2 := by omega
    simp [hm]
  have hbuildB : buildSegments (b : Int) (twoBurstStream (b + 1))
      = ⟨[⟨0, (b : Int), true, false⟩], some ⟨2, (b : Int) + 2, true, false⟩⟩ := by
    rw [twoBurstStream, hcast, hsplit1, buildSegments, List.foldl_cons, hstep0,
      List.foldl_append, List.foldl_append, hstay b le_rfl, h5, List.foldl_cons,
      hopen2, List.foldl_nil]
  have hfinB : finalizeSegments (b : Int) total
      (buildSegments (b : Int) (twoBurstStream (b + 1)))
      = [⟨0, (b : Int), true, false⟩, ⟨2, 2 * (b : Int) + 2, true, false⟩] := by
    rw [hbuildB, finalizeSegments]
    have hmin : min ((b : Int) + 2 + (b : Int)) (total - 1) = 2 * (b : Int) + 2 := by
      omega
    simp [hmin]
  -- part (c): the merge re-joins the two segments from (b)
  have hpairB : List.Pairwise (fun x y => segLe x y = true)
      [(⟨0, (b : Int), true, false⟩ : Segment),
       ⟨2, 2 * (b : Int) + 2, true, false⟩] := by
    refine List.Pairwise.cons (fun y hy => ?_) (List.pairwise_singleton _ _)
    rcases List.mem_singleton.mp hy with rfl
    simp only [segLe, decide_eq_true_eq]
    omega
  have hmergeB : mergeSegments
      [(⟨0, (b : Int), true, false⟩ : Segment), ⟨2, 2 * (b : Int) + 2, true, false⟩]
      = [⟨0, 2 * (b : Int) + 2, true, false⟩] := by
    rw [mergeSegments, List.mergeSort_of_sorted hpairB, List.foldl_cons,
      mergeStep_nil, List.foldl_cons]
    have hms := mergeStep_concat [] ⟨0, (b : Int), true, false⟩
      ⟨2, 2 * (b : Int) + 2, true, false⟩
    rw [List.nil_append] at hms
    rw [hms, if_pos (by show (2 : Int) ≤ (b : Int); omega), List.foldl_nil]
    have hmax : max ((b : Int)) (2 * (b : Int) + 2) = 2 * (b : Int) + 2 := by omega
    simp [hmax]
  -- part (d): gap of 2 * b keeps two merged segments
  have hsplit2 : inactiveRun 1 (2 * b)
      = (inactiveRun 1 b ++ [⟨1 + (b : Int), false, false⟩])
        ++ inactiveRun (1 + (b : Int) + 1) (b - 1) := by
    have h2b : 2 * b = (b + 1) + (b - 1) := by omega
    rw [h2b, inactiveRun_append 1 (b + 1) (b - 1), hsplit1]
    have hc2 : (1 : Int) + (((b + 1 : Nat)) : Int) = 1 + (b : Int) + 1 := by
      push_cast; ring
    rw [hc2]
  have hcast2 : (((2 * b : Nat)) : Int) + 1 = 2 * (b : Int) + 1 := by push_cast; ring
  have hidle2 : List.foldl (updateSegment (b : Int))
      ⟨[⟨0, (b : Int), true, false⟩], none⟩ (inactiveRun (1 + (b : Int) + 1) (b - 1))
      = ⟨[⟨0, (b : Int), true, false⟩], none⟩ :=
    foldl_inactive_idle _ _ _ (fun f hf =>
      ⟨(mem_inactiveRun _ _ f hf).1, (mem_inactiveRun _ _ f hf).2.1⟩)
  have hopen3 : updateSegment (b : Int) ⟨[⟨0, (b : Int), true, false⟩], none⟩
      ⟨2 * (b : Int) + 1, true, false⟩
      = ⟨[⟨0, (b : Int), true, false⟩],
         some ⟨(b : Int) + 1, 2 * (b : Int) + 1, true, false⟩⟩ := by
    rw [updateSegment_active_idle (b : Int) [⟨0, (b : Int), true, false⟩]
      ⟨2 * (b : Int) + 1, true, false⟩ rfl]
    have hm : max 0 (2 * (b : Int) + 1 - (b : Int)) = (b : Int) + 1 := by omega
    simp [hm]
  have hbuildD : buildSegments (b : Int) (twoBurstStream (2 * b))
      = ⟨[⟨0, (b : Int), true, false⟩],
         some ⟨(b : Int) + 1, 2 * (b : Int) + 1, true, false⟩⟩ := by
    rw [twoBurstStream, hcast2, hsplit2, buildSegments, List.foldl_cons, hstep0,
      List.foldl_append, List.foldl_append, List.foldl_append, hstay b le_rfl,
      h5, hidle2, List.foldl_cons, hopen3, List.foldl_nil]
  have hfinD : finalizeSegments (b : Int) total
      (buildSegments (b : Int) (twoBurstStream (2 * b)))
      = [⟨0, (b : Int), true, false⟩,
         ⟨(b : Int) + 1, 3 * (b : Int) + 1, true, false⟩] := by
    rw [hbuildD, finalizeSegments]
    have hmin : min (2 * (b : Int) + 1 + (b : Int)) (total - 1)
        = 3 * (b : Int) + 1 := by omega
    simp [hmin]
  have hpairD : List.Pairwise (fun x y => segLe x y = true)
      [(⟨0, (b : Int), true, false⟩ : Segment),
       ⟨(b : Int) + 1, 3 * (b : Int) + 1, true, false⟩] := by
    refine List.Pairwise.cons (fun y hy => ?_) (List.pairwise_singleton _ _)
    rcases List.mem_singleton.mp hy with rfl
    simp only [segLe, decide_eq_true_eq]
    omega
  have hmergeD : mergeSegments
      [(⟨0, (b : Int), true, false⟩ : Segment),
       ⟨(b : Int) + 1, 3 * (b : Int) + 1, true, false⟩]
      = [⟨0, (b : Int), true, false⟩,
         ⟨(b : Int) + 1, 3 * (b : Int) + 1, true, false⟩] := by
    rw [mergeSegments, List.mergeSort_of_sorted hpairD, List.foldl_cons,
      mergeStep_nil, List.foldl_cons]
    have hms := mergeStep_concat [] ⟨0, (b : Int), true, false⟩
      ⟨(b : Int) + 1, 3 * (b : Int) + 1, true, false⟩
    rw [List.nil_append] at hms
    rw [hms, if_neg (by show ¬ ((b : Int) + 1 ≤ (b : Int)); omega), List.foldl_nil]
    simp
  exact ⟨by rw [hfinA, mergeSegments_singleton], hfinB,
    by rw [hfinB, hmergeB], by rw [hfinD, hmergeD]⟩

/-- Witness for C1 (amended) at `buffer_frames = 2`, 10 total frames. -/
theorem c1_gap_amended_witness :
    ((2 ≤ 2) ∧ (3 * (2 : Int) + 2 ≤ 10))
    ∧ mergeSegments (finalizeSegments (2 : Int) 10
        (buildSegments (2 : Int) (twoBurstStream 2)))
      = [⟨0, 2 * (2 : Int) + 1, true, false⟩]
    ∧ mergeSegments (finalizeSegments (2 : Int) 10
        (buildSegments (2 : Int) (twoBurstStream (2 + 1))))
      = [⟨0, 2 * (2 : Int) + 2, true, false⟩]
    ∧ mergeSegments (finalizeSegments (2 : Int) 10
        (buildSegments (2 : Int) (twoBurstStream (2 * 2))))
      = [⟨0, (2 : Int), true, false⟩, ⟨(2 : Int) + 1, 3 * (2 : Int) + 1, true, false⟩] :=
  ⟨⟨by decide, by decide⟩, (c1_gap_amended 2 (by decide) 10 (by decide)).1,
    (c1_gap_amended 2 (by decide) 10 (by decide)).2.2.1,
    (c1_gap_amended 2 (by decide) 10 (by decide)).2.2.2⟩

/-- Invariant of the merge fold: starting from an accumulator that is
separated (each segment ends strictly before the next begins) and sorted by
`start`, with every accumulated `start` below every remaining `start`, and a
remaining list sorted by `start`, the fold keeps the accumulator separated and
sorted by `start`. -/
theorem merge_fold_good (l : List Segment) :
    ∀ acc : List Segment,
      acc.Chain' (fun a b => a.stop < b.start) →
      ((acc.map Segment.start).Pairwise (· ≤ ·)) →
      (∀ a ∈ acc, ∀ t ∈ l, a.start ≤ t.start) →
      l.Pairwise (fun a b => a.start ≤ b.start) →
      (List.foldl mergeStep acc l).Chain' (fun a b => a.stop < b.start)
      ∧ ((List.foldl mergeStep acc l).map Segment.start).Pairwise (· ≤ ·) := by
  induction l with
  | nil => intro acc h1 h2 _ _; exact ⟨h1, h2⟩
  | cons s l ih =>
      intro acc h1 h2 h3 h4
      rw [List.foldl_cons]
      have hsl : ∀ t ∈ l, s.start ≤ t.start := (List.pairwise_cons.mp h4).1
      have hl4 := (List.pairwise_cons.mp h4).2
      rcases List.eq_nil_or_concat acc with rfl | ⟨as, last, rfl⟩
      · rw [mergeStep_nil]
        apply ih
        · exact List.chain'_singleton s
        · simp
        · intro a ha t ht
          rcases List.mem_singleton.mp ha with rfl
          exact hsl t ht
        · exact hl4
      · rw [List.concat_eq_append] at h1 h2 h3 ⊢
        rw [mergeStep_concat]
        by_cases hif : s.start ≤ last.stop
        · rw [if_pos hif]
          apply ih
          · rw [List.chain'_append] at h1 ⊢
            refine ⟨h1.1, List.chain'_singleton _, ?_⟩
            intro x hx y hy
            simp only [List.head?_cons, Option.mem_def, Option.some.injEq] at hy
            subst hy
            have hxy := h1.2.2 x hx last (by simp)
            simpa using hxy
          · have hmapeq : ((as ++ [{ last with
                stop := max last.stop s.stop,
                motion := last.motion || s.motion,
                objects := last.objects || s.objects }]).map Segment.start)
                = ((as ++ [last]).map Segment.start) := by simp
            rw [hmapeq]
            exact h2
          · intro a ha t ht
            rcases List.mem_append.mp ha with ha | ha
            · exact h3 a (List.mem_append.mpr (Or.inl ha)) t
                (List.mem_cons_of_mem s ht)
            · rcases List.mem_singleton.mp ha with rfl
              have := h3 last (List.mem_append.mpr (Or.inr (List.mem_singleton.mpr rfl)))
                t (List.mem_cons_of_mem s ht)
              simpa using this
          · exact hl4
        · rw [if_neg hif]
          apply ih
          · rw [List.chain'_append]
            refine ⟨h1, List.chain'_singleton _, ?_⟩
            intro x hx y hy
            simp only [List.head?_cons, Option.mem_def, Option.some.injEq] at hy
            subst hy
            rw [List.getLast?_concat, Option.mem_def, Option.some.injEq] at hx
            subst hx
            exact lt_of_not_le hif
          · rw [List.map_append, List.pairwise_append]
            refine ⟨h2, List.pairwise_singleton _ _, ?_⟩
            intro x hx y hy
            rcases List.mem_map.mp hx with ⟨a, ha, rfl⟩
            rcases List.mem_singleton.mp hy with rfl
            exact h3 a ha s (List.mem_cons_self s l)
          · intro a ha t ht
            rcases List.mem_append.mp ha with ha | ha
            · exact h3 a ha t (List.mem_cons_of_mem s ht)
            · rcases List.mem_singleton.mp ha with rfl
              exact hsl t ht
          · exact hl4

/-- Folding `mergeStep` over a list that is separated from (and after) the
accumulator just appends it: no merging happens on a separated list. -/
theorem merge_fold_sep_id (M : List Segment) :
    ∀ as last, (as ++ last :: M).Chain' (fun a b => a.stop < b.start) →
      List.foldl mergeStep (as ++ [last]) M = as ++ last :: M := by
  induction M with
  | nil => intro as last _; simp
  | cons s M ih =>
      intro as last hchain
      rw [List.foldl_cons, mergeStep_concat]
      have hch2 : (last :: s :: M).Chain' (fun a b => a.stop < b.start) :=
        ((List.chain'_append).mp hchain).2.1
      have hsep : last.stop < s.start := (List.chain'_cons.mp hch2).1
      rw [if_neg (not_le.mpr hsep)]
      have hch3 : ((as ++ [last]) ++ s :: M).Chain' (fun a b => a.stop < b.start) := by
        simpa [List.append_assoc] using hchain
      rw [ih (as ++ [last]) s hch3]
      simp

/-- C3: the merge operation of `process_video` is idempotent — re-merging an
already merged segment list returns it unchanged. -/
theorem c3_merge_idempotent (segs : List Segment) :
    mergeSegments (mergeSegments segs) = mergeSegments segs := by
  have htrans : ∀ a b c : Segment,
      segLe a b = true → segLe b c = true → segLe a c = true := by
    intro a b c
    simp only [segLe, decide_eq_true_eq]
    omega
  have htotal : ∀ a b : Segment, (segLe a b || segLe b a) = true := by
    intro a b
    simp only [segLe, Bool.or_eq_true, decide_eq_true_eq]
    omega
  have hsorted : (segs.mergeSort segLe).Pairwise (fun a b => a.start ≤ b.start) :=
    (List.sorted_mergeSort htrans htotal segs).imp
      (by intro a b h; simpa [segLe, decide_eq_true_eq] using h)
  obtain ⟨hchain, hpair⟩ := merge_fold_good (segs.mergeSort segLe) []
    List.chain'_nil List.Pairwise.nil (by simp) hsorted
  have hM : mergeSegments segs = List.foldl mergeStep [] (segs.mergeSort segLe) := rfl
  rw [← hM] at hchain hpair
  have hMpair : (mergeSegments segs).Pairwise (fun a b => segLe a b = true) :=
    (List.pairwise_map.mp hpair).imp
      (by intro a b h; simpa [segLe, decide_eq_true_eq] using h)
  have houter : mergeSegments (mergeSegments segs)
      = ((mergeSegments segs).mergeSort segLe).foldl mergeStep [] := rfl
  rw [houter, List.mergeSort_of_sorted hMpair]
  rcases hMeq : mergeSegments segs with _ | ⟨s, M⟩
  · rfl
  · rw [List.foldl_cons, mergeStep_nil]
    rw [hMeq] at hchain
    have := merge_fold_sep_id M [] s (by simpa using hchain)
    simpa using this

/-- Step equation: an inactive frame with no open segment changes nothing. -/
theorem updateSegment_inactive_idle (B : Int) (segs : List Segment) (f : Frame)
    (h : (f.motion || f.objects) = false) :
    updateSegment B ⟨segs, none⟩ f = ⟨segs, none⟩ := by
  rw [updateSegment, h]
  rfl

/-- Inductive invariant of the segment builder over a stream of in-range,
strictly increasing frame indices: every closed segment satisfies
`start ≤ end`, and an open segment satisfies `start ≤ end < total_frames`. -/
theorem build_inv (B total : Int) (hB : 0 ≤ B) (frames : List Frame) :
    ∀ st : BuildState,
      (∀ f ∈ frames, 0 ≤ f.idx ∧ f.idx < total) →
      frames.Pairwise (fun a b => a.idx < b.idx) →
      (∀ s ∈ st.segments, s.start ≤ s.stop) →
      (∀ cur, st.current = some cur →
        cur.start ≤ cur.stop ∧ cur.stop < total ∧ ∀ f ∈ frames, cur.stop ≤ f.idx) →
      (∀ s ∈ (frames.foldl (updateSegment B) st).segments, s.start ≤ s.stop)
      ∧ (∀ cur, (frames.foldl (updateSegment B) st).current = some cur →
          cur.start ≤ cur.stop ∧ cur.stop < total) := by
  induction frames with
  | nil =>
      intro st _ _ hsegs hcur
      exact ⟨hsegs, fun cur hc => ⟨(hcur cur hc).1, (hcur cur hc).2.1⟩⟩
  | cons f fs ih =>
      intro st hrange hmono hsegs hcur
      obtain ⟨segs, cur0⟩ := st
      have hfr := hrange f (List.mem_cons_self f fs)
      have hfs_range : ∀ g ∈ fs, 0 ≤ g.idx ∧ g.idx < total :=
        fun g hg => hrange g (List.mem_cons_of_mem f hg)
      have hafter : ∀ g ∈ fs, f.idx < g.idx := (List.pairwise_cons.mp hmono).1
      have hmono' := (List.pairwise_cons.mp hmono).2
      rw [List.foldl_cons]
      by_cases hact : (f.motion || f.objects) = true
      · cases cur0 with
        | none =>
            rw [updateSegment_active_idle B segs f hact]
            apply ih _ hfs_range hmono'
            · exact hsegs
            · intro cur hc
              simp only [Option.some.injEq] at hc
              subst hc
              refine ⟨?_, hfr.2, fun g hg => le_of_lt (hafter g hg)⟩
              show max 0 (f.idx - B) ≤ f.idx
              have := hfr.1
              omega
        | some cur =>
            have hcurp := hcur cur rfl
            rw [updateSegment_active_open B segs cur f hact]
            apply ih _ hfs_range hmono'
            · exact hsegs
            · intro cur' hc
              simp only [Option.some.injEq] at hc
              subst hc
              have hstop : cur.stop ≤ f.idx :=
                hcurp.2.2 f (List.mem_cons_self f fs)
              exact ⟨le_trans hcurp.1 hstop, hfr.2,
                fun g hg => le_of_lt (hafter g hg)⟩
      · have hact' : (f.motion || f.objects) = false := by
          simpa using hact
        obtain ⟨hm, ho⟩ := Bool.or_eq_false_iff.mp hact'
        cases cur0 with
        | none =>
            rw [updateSegment_inactive_idle B segs f hact']
            apply ih _ hfs_range hmono'
            · exact hsegs
            · intro cur hc
              simp at hc
        | some cur =>
            have hcurp := hcur cur rfl
            rw [updateSegment_inactive_open B segs cur f hm ho]
            by_cases hgap : f.idx - cur.stop > B
            · rw [if_pos hgap]
              apply ih _ hfs_range hmono'
              · intro t ht
                rcases List.mem_append.mp ht with ht | ht
                · exact hsegs t ht
                · rcases List.mem_singleton.mp ht with rfl
                  show cur.start ≤ cur.stop + B
                  have := hcurp.1
                  omega
              · intro cur' hc
                simp at hc
            · rw [if_neg hgap]
              apply ih _ hfs_range hmono'
              · exact hsegs
              · intro cur' hc
                simp only [Option.some.injEq] at hc
                subst hc
                exact ⟨hcurp.1, hcurp.2.1,
                  fun g hg => hcurp.2.2 g (List.mem_cons_of_mem f hg)⟩

/-- Merging preserves `start ≤ end` of every segment. -/
theorem mergeSegments_preserves_le (segs : List Segment)
    (h : ∀ s ∈ segs, s.start ≤ s.stop) :
    ∀ s ∈ mergeSegments segs, s.start ≤ s.stop := by
  have hsort : ∀ s ∈ segs.mergeSort segLe, s.start ≤ s.stop :=
    fun s hs => h s (List.mem_mergeSort.mp hs)
  suffices hfold : ∀ l acc : List Segment, (∀ s ∈ l, s.start ≤ s.stop) →
      (∀ s ∈ acc, s.start ≤ s.stop) →
      ∀ s ∈ List.foldl mergeStep acc l, s.start ≤ s.stop by
    exact hfold _ [] hsort (by simp)
  intro l
  induction l with
  | nil =>
      intro acc _ hacc
      simpa using hacc
  | cons s l ihl =>
      intro acc hl hacc
      rw [List.foldl_cons]
      apply ihl _ (fun t ht => hl t (List.mem_cons_of_mem s ht))
      rcases List.eq_nil_or_concat acc with rfl | ⟨as, last, rfl⟩
      · rw [mergeStep_nil]
        intro t ht
        rw [List.mem_singleton.mp ht]
        exact hl s (List.mem_cons_self s l)
      · rw [List.concat_eq_append] at hacc ⊢
        rw [mergeStep_concat]
        by_cases hif : s.start ≤ last.stop
        · rw [if_pos hif]
          intro t ht
          rcases List.mem_append.mp ht with ht | ht
          · exact hacc t (List.mem_append.mpr (Or.inl ht))
          · rw [List.mem_singleton.mp ht]
            have hlast := hacc last
              (List.mem_append.mpr (Or.inr (List.mem_singleton.mpr rfl)))
            show last.start ≤ max last.stop s.stop
            exact le_trans hlast (le_max_left _ _)
        · rw [if_neg hif]
          intro t ht
          rcases List.mem_append.mp ht with ht | ht
          · exact hacc t ht
          · rw [List.mem_singleton.mp ht]
            exact hl s (List.mem_cons_self s l)

/-- C8: over any in-range, strictly increasing analyzed-frame stream with a
non-negative buffer, every segment satisfies `start ≤ end` in the builder's
closed list, in the still-open segment, after the end-of-stream close, and
after merging; and one builder step never decreases the end of a segment that
stays open. -/
theorem c8_segment_invariants (B total : Int) (hB : 0 ≤ B) (frames : List Frame)
    (hrange : ∀ f ∈ frames, 0 ≤ f.idx ∧ f.idx < total)
    (hmono : frames.Chain' (fun a b => a.idx < b.idx)) :
    (∀ s ∈ (buildSegments B frames).segments, s.start ≤ s.stop)
    ∧ (∀ cur, (buildSegments B frames).current = some cur → cur.start ≤ cur.stop)
    ∧ (∀ s ∈ finalizeSegments B total (buildSegments B frames), s.start ≤ s.stop)
    ∧ (∀ s ∈ mergeSegments (finalizeSegments B total (buildSegments B frames)),
        s.start ≤ s.stop)
    ∧ (∀ (st : BuildState) (f : Frame) (cur cur' : Segment),
        st.current = some cur → cur.stop ≤ f.idx →
        (updateSegment B st f).current = some cur' → cur.stop ≤ cur'.stop) := by
  have hmonoP : frames.Pairwise (fun a b => a.idx < b.idx) := by
    haveI : IsTrans Frame (fun a b => a.idx < b.idx) :=
      ⟨fun a b c h1 h2 => lt_trans h1 h2⟩
    exact List.chain'_iff_pairwise.mp hmono
  obtain ⟨hsegsF, hcurF⟩ := build_inv B total hB frames ⟨[], none⟩ hrange hmonoP
    (by simp) (by intro cur hc; simp at hc)
  have hbuild : buildSegments B frames = frames.foldl (updateSegment B) ⟨[], none⟩ := rfl
  rw [← hbuild] at hsegsF hcurF
  have hfin : ∀ s ∈ finalizeSegments B total (buildSegments B frames),
      s.start ≤ s.stop := by
    intro s hs
    rw [finalizeSegments] at hs
    rcases hc : (buildSegments B frames).current with _ | cur
    · rw [hc] at hs
      exact hsegsF s hs
    · rw [hc] at hs
      rcases List.mem_append.mp hs with hs | hs
      · exact hsegsF s hs
      · rcases List.mem_singleton.mp hs with rfl
        have hcur := hcurF cur hc
        show cur.start ≤ min (cur.stop + B) (total - 1)
        have h1 := hcur.1
        have h2 := hcur.2
        omega
  refine ⟨hsegsF, fun cur hc => (hcurF cur hc).1, hfin,
    mergeSegments_preserves_le _ hfin, ?_⟩
  intro st f cur cur' hc hle hc'
  obtain ⟨segs, cur0⟩ := st
  simp only at hc
  subst hc
  by_cases hact : (f.motion || f.objects) = true
  · rw [updateSegment_active_open B segs cur f hact] at hc'
    simp only [Option.some.injEq] at hc'
    subst hc'
    exact hle
  · have hact' : (f.motion || f.objects) = false := by simpa using hact
    obtain ⟨hm, ho⟩ := Bool.or_eq_false_iff.mp hact'
    rw [updateSegment_inactive_open B segs cur f hm ho] at hc'
    by_cases hgap : f.idx - cur.stop > B
    · rw [if_pos hgap] at hc'
      simp at hc'
    · rw [if_neg hgap] at hc'
      simp only [Option.some.injEq] at hc'
      subst hc'
      exact le_refl _

/-- Witness for C8 at a two-frame stream with `buffer_frames = 1` and two
total frames. -/
theorem c8_segment_invariants_witness :
    ((0 : Int) ≤ 1
      ∧ (∀ f ∈ [(⟨0, true, false⟩ : Frame), ⟨1, false, false⟩],
          0 ≤ f.idx ∧ f.idx < 2)
      ∧ ([(⟨0, true, false⟩ : Frame), ⟨1, false, false⟩].Chain'
          (fun a b => a.idx < b.idx)))
    ∧ (∀ s ∈ finalizeSegments 1 2 (buildSegments 1
          [(⟨0, true, false⟩ : Frame), ⟨1, false, false⟩]), s.start ≤ s.stop) :=
  ⟨⟨by decide, by decide,
      List.chain'_cons.mpr ⟨by decide, List.chain'_singleton _⟩⟩,
    (c8_segment_invariants 1 2 (by decide)
      [(⟨0, true, false⟩ : Frame), ⟨1, false, false⟩]
      (by decide)
      (List.chain'_cons.mpr ⟨by decide, List.chain'_singleton _⟩)).2.2.1⟩

/-- The six-digit zero-padded `HHMMSS` timestamp rendering that the claimed
filename convention `{startHHMMSS}` / `{endHHMMSS}` describes.  Stated from
the spec's words, for comparison with the code's rendering. -/
def specHHMMSS (t : Nat) : String :=
pad2 (t / 3600) ++ pad2 (t % 3600 / 60) ++ pad2 (t % 60)

/-- The claimed output filename convention
`{sourceBaseName}_seg{ordinal:03d}_{startHHMMSS}_{endHHMMSS}[_obj][_mot].{ext}`,
stated from the spec's words. -/
def specClipName (base : String) (ordinal : Nat) (t1 t2 : Nat)
    (objects motion : Bool) (ext : String) : String :=
base ++ "_seg" ++ pad3 ordinal ++ "_" ++ specHHMMSS t1 ++ "_" ++ specHHMMSS t2
  ++ (if objects then "_obj" else "") ++ (if motion then "_mot" else "")
  ++ "." ++ ext

/-- Removing colons distributes over string concatenation. -/
theorem stripColons_append (a b : String) :
    stripColons (a ++ b) = stripColons a ++ stripColons b := by
  rw [stripColons, stripColons, stripColons]
  rw [String.data_append, List.filter_append]
  rfl

/-- Removing colons from a colon-free string changes nothing. -/
theorem stripColons_eq_self (s : String) (h : ∀ c ∈ s.data, ¬ c = ':') :
    stripColons s = s := by
  rw [stripColons, List.filter_eq_self.mpr (by simpa using h)]

/-- Two-digit paddings of counts below 60 contain no colon. -/
theorem pad2_no_colon : ∀ n : Nat, n < 60 → ∀ c ∈ (pad2 n).data, ¬ c = ':' := by
  decide

/-- Single decimal digits contain no colon. -/
theorem toString_digit_no_colon :
    ∀ n : Nat, n < 10 → ∀ c ∈ (toString n).data, ¬ c = ':' := by
  decide

/-- `s ++ "" = s` for strings. -/
theorem string_append_empty (s : String) : s ++ "" = s := by
  cases s with
  | mk data =>
      show String.mk (data ++ []) = String.mk data
      rw [List.append_nil]

/-- For times of at least zero and under ten hours, the code's colon-stripped
`str(timedelta(...))` is the hour digit (NOT zero-padded) followed by
two-digit minutes and seconds. -/
theorem timedeltaStr_strip (n : Int) (h0 : 0 ≤ n) (h1 : n < 36000) :
    stripColons (timedeltaStr n)
      = toString (n.toNat / 3600) ++ pad2 (n.toNat % 3600 / 60)
        ++ pad2 (n.toNat % 60) := by
  have hdays : Int.fdiv n 86400 = 0 := by
    rw [Int.fdiv_eq_ediv _ (by norm_num)]
    omega
  have hmod : Int.fmod n 86400 = n := by
    rw [Int.fmod_eq_emod _ (by norm_num)]
    omega
  rw [timedeltaStr]
  simp only [hdays, hmod, if_pos]
  rw [stripColons_append, stripColons_append, stripColons_append, stripColons_append]
  rw [show stripColons ":" = "" from rfl]
  rw [stripColons_eq_self (toString (n.toNat / 3600))
    (toString_digit_no_colon _ (by omega))]
  rw [stripColons_eq_self (pad2 (n.toNat % 3600 / 60)) (pad2_no_colon _ (by omega))]
  rw [stripColons_eq_self (pad2 (n.toNat % 60)) (pad2_no_colon _ (by omega))]
  rw [string_append_empty, string_append_empty]

/-- C7, counterexample: the merged segment `[100, 300]` of a 10 fps video
named `video` (motion flagged) produces the clip filename
`video_seg001_00010_00030_mot.mp4` — the timestamps are the colon-stripped
`0:00:10` / `0:00:30`, five digits with an unpadded hour — which differs from
the claimed six-digit-HHMMSS name `video_seg001_000010_000030_mot.mp4`. -/
theorem c7_filename_counterexample :
    (extractClips "video" "out" 10 [⟨100, 300, true, false⟩]).map
        ExtractedClip.filename
      = ["out/video_seg001_00010_00030_mot.mp4"]
    ∧ "out/video_seg001_00010_00030_mot.mp4"
      ≠ "out/" ++ specClipName "video" 1 10 30 false true "mp4" := by
  constructor
  · have e1 : ratTrunc (((100 : Int) : Rat) / 10) = 10 := by
      rw [ratTrunc, if_pos (by norm_num)]
      norm_num
    have e2 : ratTrunc (((300 : Int) : Rat) / 10) = 30 := by
      rw [ratTrunc, if_pos (by norm_num)]
      norm_num
    simp only [extractClips, List.enum_cons, List.enumFrom_nil, List.filterMap_cons,
      List.filterMap_nil]
    norm_num [e1, e2]
    decide
  · decide

/-- C7, amended: every extracted clip's path is
`{outputDir}/{sourceBaseName}_seg{ordinal:03d}_{start}_{end}[_obj][_mot].mp4`
where, for clips starting and ending below ten hours, each timestamp is the
colon-stripped `str(timedelta(...))` — the hour UNPADDED followed by
two-digit minutes and seconds (five digits), not the claimed six-digit
zero-padded HHMMSS. -/
theorem c7_filename_amended (video_name output_dir : String) (fps : Rat)
    (merged : List Segment) :
    (∀ c ∈ extractClips video_name output_dir fps merged,
      ∃ p ∈ merged.enum,
        c.filename = output_dir ++ "/"
          ++ segmentName video_name p.1 (ratTrunc ((p.2.start : Rat) / fps))
              (ratTrunc ((p.2.stop : Rat) / fps)) p.2.objects p.2.motion
          ++ ".mp4")
    ∧ (∀ (i : Nat) (s1 s2 : Int) (objects motion : Bool),
        0 ≤ s1 → s1 < 36000 → 0 ≤ s2 → s2 < 36000 →
        segmentName video_name i s1 s2 objects motion
          = video_name ++ "_seg" ++ pad3 (i + 1) ++ "_"
            ++ (toString (s1.toNat / 3600) ++ pad2 (s1.toNat % 3600 / 60)
                ++ pad2 (s1.toNat % 60))
            ++ "_"
            ++ (toString (s2.toNat / 3600) ++ pad2 (s2.toNat % 3600 / 60)
                ++ pad2 (s2.toNat % 60))
            ++ (if objects then "_obj" else "")
            ++ (if motion then "_mot" else "")) := by
  constructor
  · intro c hc
    simp only [extractClips, List.mem_filterMap] at hc
    rcases hc with ⟨p, hp, heq⟩
    refine ⟨p, hp, ?_⟩
    split at heq
    · cases heq
    · simp only [Option.some.injEq] at heq
      rw [← heq]
  · intro i s1 s2 objects motion h1 h2 h3 h4
    rw [segmentName, timedeltaStr_strip s1 h1 h2, timedeltaStr_strip s2 h3 h4]

/-- Witness for C7 (amended) at the counterexample's concrete clip: ten
seconds is rendered `00010`. -/
theorem c7_filename_amended_witness :
    ((0 : Int) ≤ 10 ∧ (10 : Int) < 36000 ∧ (0 : Int) ≤ 30 ∧ (30 : Int) < 36000)
    ∧ segmentName "video" 0 10 30 false true
      = "video" ++ "_seg" ++ pad3 (0 + 1) ++ "_"
        ++ (toString ((10 : Int).toNat / 3600) ++ pad2 ((10 : Int).toNat % 3600 / 60)
            ++ pad2 ((10 : Int).toNat % 60))
        ++ "_"
        ++ (toString ((30 : Int).toNat / 3600) ++ pad2 ((30 : Int).toNat % 3600 / 60)
            ++ pad2 ((30 : Int).toNat % 60))
        ++ (if false then "_obj" else "")
        ++ (if true then "_mot" else "") :=
  ⟨⟨by decide, by decide, by decide, by decide⟩,
    (c7_filename_amended "video" "out" 10 []).2 0 10 30 false true
      (by decide) (by decide) (by decide) (by decide)⟩

end VideoProcessor
